import Mathlib

/-!
Verification of the dwg-parser repository (src/codes/parser.py) against its
natural-language specification.

The Python source is shallowly embedded below.  Conventions used throughout:

* Python floats are modelled exactly: by the rationals wherever the source
  performs only field operations and comparisons, and by the reals where the
  source takes square roots (calibration fitting).
* Python dictionaries (which preserve insertion order) are modelled as
  association lists `List (String × _)`; well-formedness (distinct keys) is an
  explicit hypothesis where a theorem needs it.
* Raising an exception is modelled with `Except`: a Python function that can
  raise becomes a Lean function into `Except E _`.
* `math.dist` is the Euclidean distance.  Every use in the source only
  compares distances (`< 20`, or against another distance), and the square
  root is strictly monotone on nonnegative reals, so those comparisons are
  modelled by comparisons of squared distances (threshold `400 = 20 ^ 2`).
* Python's substring test `a in b` is modelled by `isSubstring a b`.
-/

/-- Whether the character list `n` is a prefix of `h` (Python slice equality). -/
def startsWithChars : List Char → List Char → Bool
  | [], _ => true
  | _ :: _, [] => false
  | a :: as, b :: bs => a == b && startsWithChars as bs

/-- Whether `n` occurs as a contiguous segment of `h`. -/
def containsSeg (n : List Char) : List Char → Bool
  | [] => startsWithChars n []
  | b :: bs => startsWithChars n (b :: bs) || containsSeg n bs

/-- Python's substring test `needle in hay` on strings. -/
def isSubstring (needle hay : String) : Bool :=
  containsSeg needle.data hay.data

/-- Squared Euclidean distance; models `math.dist` under the monotone
square-root convention described in the header. -/
def sqDist (p q : ℚ × ℚ) : ℚ :=
  (p.1 - q.1) * (p.1 - q.1) + (p.2 - q.2) * (p.2 - q.2)

/-- One record of the collector's output map: the fields stored by
`collect_items` at parser.py line 400. -/
structure PElement where
  name : String
  layer : String
  rgb : ℕ × ℕ × ℕ
  pos_dxf : ℚ × ℚ
  pos_img : ℚ × ℚ
  txt : String
deriving DecidableEq

/-- The record map produced by the collector: identity handle to record,
in insertion order (Python dict). -/
abbrev PElements := List (String × PElement)

/-- Concatenation of the `txt` fields of a list of records. -/
def concatTxts : List (String × PElement) → String
  | [] => ""
  | c :: r => c.2.txt ++ concatTxts r

/-- Whether a record is a pure text carrier: `"Schaltkreis" in element["name"]`
(parser.py line 527). -/
def isCarrier (e : PElement) : Bool :=
  isSubstring "Schaltkreis" e.name

/-- The non-carrier records of `elements`, in order: the `new_elements`
initialisation of `merge_data` (parser.py lines 526-530), which is also the
set of owner candidates iterated by its second loop (line 534 skips
carriers). -/
def ownersOf (E : PElements) : PElements :=
  E.filter (fun p => !isCarrier p.2)

/-- The carrier records of `elements`, in order: the `items` list of
`merge_data` (parser.py lines 526-528, which stores the ids; we keep the
pairs since `elements` is not mutated while `items` is used). -/
def carriersOf (E : PElements) : PElements :=
  E.filter (fun p => isCarrier p.2)

/-- The merge guard of parser.py line 539:
`element["layer"] in candidate["layer"] and math.dist(...) < 20`, where
`element` is the owner candidate and `candidate` the carrier. -/
def compatOwner (c o : PElement) : Bool :=
  isSubstring o.layer c.layer && decide (sqDist c.pos_dxf o.pos_dxf < 400)

/-- The replacement step of parser.py lines 540-544: keep the stored owner
unless the new candidate owner is strictly closer to the carrier. -/
def closerOwner (c : PElement) (b p : String × PElement) : String × PElement :=
  if sqDist c.pos_dxf p.2.pos_dxf < sqDist c.pos_dxf b.2.pos_dxf then p else b

/-- One step of the `potential_candidate` update for a fixed carrier `c`
(parser.py lines 539-544). -/
def selStep (c : PElement) (acc : Option (String × PElement)) (p : String × PElement) :
    Option (String × PElement) :=
  if compatOwner c p.2 then
    some (match acc with
      | none => p
      | some b => closerOwner c b p)
  else acc

/-- The owner selected for carrier `c` by the nested loops of parser.py
lines 533-544.  The Python code iterates owners in the outer loop and
carriers in the inner loop, but the `potential_candidate` entry of one
carrier never depends on another's, so the selection is equivalently a fold
over the owner candidates in iteration order for each carrier. -/
def selOwner (owners : PElements) (c : PElement) : Option (String × PElement) :=
  owners.foldl (selStep c) none

/-- Dictionary text update `elements[j]["txt"] += t` on the association-list
model. -/
def appendTxt (E : PElements) (j : String) (t : String) : PElements :=
  E.map (fun p => if p.1 = j then (p.1, { p.2 with txt := p.2.txt ++ t }) else p)

/-- The final loop body of `merge_data` (parser.py lines 545-549): a matched
carrier appends its text to its selected owner, an unmatched one is only
printed and leaves the map unchanged. -/
def mergeStep (E : PElements) (acc : PElements) (c : String × PElement) : PElements :=
  match selOwner (ownersOf E) c.2 with
  | none => acc
  | some jo => appendTxt acc jo.1 c.2.txt

/-- The Spatial Fusion Engine `merge_data` (parser.py lines 523-550):
split off the carriers, pick each carrier's nearest layer-compatible owner,
then append each matched carrier's text to its owner; carriers themselves are
dropped from the returned map. -/
def merge_data (E : PElements) : PElements :=
  (carriersOf E).foldl (mergeStep E) (ownersOf E)

/-- The carriers reported by the `print("CHKA: ", ...)` branch of
parser.py lines 546-547: those for which no owner was selected.  They are
written to standard output only. -/
def mergeChka (E : PElements) : PElements :=
  (carriersOf E).filter (fun c => (selOwner (ownersOf E) c.2).isNone)

/-- Modelled from `main` (parser.py lines 567, 599-600): the `proned_txt`
list is created empty, never appended to, and serialized to
`extracted_txt.json`; it is the only side collection in the program's
serialized output. -/
def proned_txt : List PElement := []

/-- The property of being the first-seen closest compatible owner for carrier
`c` among the owner candidates, in iteration order: every earlier compatible
candidate is strictly farther, every later one at least as far. -/
def FirstMin (c : PElement) (owners : PElements) (r : String × PElement) : Prop :=
  ∃ pre post, owners = pre ++ r :: post ∧ compatOwner c r.2 = true ∧
    (∀ p ∈ pre, compatOwner c p.2 = true →
      sqDist c.pos_dxf r.2.pos_dxf < sqDist c.pos_dxf p.2.pos_dxf) ∧
    (∀ p ∈ post, compatOwner c p.2 = true →
      sqDist c.pos_dxf r.2.pos_dxf ≤ sqDist c.pos_dxf p.2.pos_dxf)

theorem selFold_some (c : PElement) :
    ∀ (l : PElements) (b r : String × PElement),
      l.foldl (selStep c) (some b) = some r →
      (r = b ∧ ∀ p ∈ l, compatOwner c p.2 = true →
          sqDist c.pos_dxf b.2.pos_dxf ≤ sqDist c.pos_dxf p.2.pos_dxf) ∨
      (∃ pre post, l = pre ++ r :: post ∧ compatOwner c r.2 = true ∧
          sqDist c.pos_dxf r.2.pos_dxf < sqDist c.pos_dxf b.2.pos_dxf ∧
          (∀ p ∈ pre, compatOwner c p.2 = true →
            sqDist c.pos_dxf r.2.pos_dxf < sqDist c.pos_dxf p.2.pos_dxf) ∧
          (∀ p ∈ post, compatOwner c p.2 = true →
            sqDist c.pos_dxf r.2.pos_dxf ≤ sqDist c.pos_dxf p.2.pos_dxf)) := by
  intro l
  induction l with
  | nil =>
    intro b r h
    simp only [List.foldl_nil, Option.some.injEq] at h
    exact Or.inl ⟨h.symm, by intro p hp; simp at hp⟩
  | cons p rest ih =>
    intro b r h
    simp only [List.foldl_cons] at h
    by_cases hc : compatOwner c p.2 = true
    · rw [show selStep c (some b) p = some (closerOwner c b p) by simp [selStep, hc]] at h
      by_cases hlt : sqDist c.pos_dxf p.2.pos_dxf < sqDist c.pos_dxf b.2.pos_dxf
      · rw [show closerOwner c b p = p from if_pos hlt] at h
        rcases ih p r h with ⟨hrp, hall⟩ | ⟨pre, post, heq, hcr, hlt2, hpre, hpost⟩
        · subst hrp
          exact Or.inr ⟨[], rest, rfl, hc, hlt, by intro q hq; simp at hq, hall⟩
        · refine Or.inr ⟨p :: pre, post, by rw [heq]; rfl, hcr, lt_trans hlt2 hlt, ?_, hpost⟩
          intro q hq hcq
          rcases List.mem_cons.mp hq with hq | hq
          · subst hq; exact hlt2
          · exact hpre q hq hcq
      · rw [show closerOwner c b p = b from if_neg hlt] at h
        rcases ih b r h with ⟨hrb, hall⟩ | ⟨pre, post, heq, hcr, hlt2, hpre, hpost⟩
        · refine Or.inl ⟨hrb, ?_⟩
          intro q hq hcq
          rcases List.mem_cons.mp hq with hq | hq
          · subst hq; exact le_of_not_lt hlt
          · exact hall q hq hcq
        · refine Or.inr ⟨p :: pre, post, by rw [heq]; rfl, hcr,
            hlt2, ?_, hpost⟩
          intro q hq hcq
          rcases List.mem_cons.mp hq with hq | hq
          · subst hq; exact lt_of_lt_of_le hlt2 (le_of_not_lt hlt)
          · exact hpre q hq hcq
    · rw [show selStep c (some b) p = some b by simp [selStep, hc]] at h
      rcases ih b r h with ⟨hrb, hall⟩ | ⟨pre, post, heq, hcr, hlt2, hpre, hpost⟩
      · refine Or.inl ⟨hrb, ?_⟩
        intro q hq hcq
        rcases List.mem_cons.mp hq with hq | hq
        · subst hq; exact absurd hcq hc
        · exact hall q hq hcq
      · refine Or.inr ⟨p :: pre, post, by rw [heq]; rfl, hcr, hlt2, ?_, hpost⟩
        intro q hq hcq
        rcases List.mem_cons.mp hq with hq | hq
        · subst hq; exact absurd hcq hc
        · exact hpre q hq hcq

theorem selOwner_spec :
    ∀ (owners : PElements) (c : PElement) (r : String × PElement),
      selOwner owners c = some r → FirstMin c owners r := by
  intro owners
  induction owners with
  | nil => intro c r h; simp [selOwner] at h
  | cons p rest ih =>
    intro c r h
    rw [selOwner, List.foldl_cons] at h
    by_cases hc : compatOwner c p.2 = true
    · rw [show selStep c none p = some p by simp [selStep, hc]] at h
      rcases selFold_some c rest p r h with ⟨hrp, hall⟩ | ⟨pre, post, heq, hcr, hlt2, hpre, hpost⟩
      · subst hrp
        exact ⟨[], rest, rfl, hc, by intro q hq; simp at hq, hall⟩
      · refine ⟨p :: pre, post, by rw [heq]; rfl, hcr, ?_, hpost⟩
        intro q hq hcq
        rcases List.mem_cons.mp hq with hq | hq
        · subst hq; exact hlt2
        · exact hpre q hq hcq
    · rw [show selStep c none p = none by simp [selStep, hc]] at h
      rcases ih c r h with ⟨pre, post, heq, hcr, hpre, hpost⟩
      refine ⟨p :: pre, post, by rw [heq]; rfl, hcr, ?_, hpost⟩
      intro q hq hcq
      rcases List.mem_cons.mp hq with hq | hq
      · subst hq; exact absurd hcq hc
      · exact hpre q hq hcq

theorem selFold_isSome (c : PElement) :
    ∀ (l : PElements) (b : String × PElement),
      (l.foldl (selStep c) (some b)).isSome = true := by
  intro l
  induction l with
  | nil => intro b; rfl
  | cons p rest ih =>
    intro b
    rw [List.foldl_cons]
    by_cases hc : compatOwner c p.2 = true
    · rw [show selStep c (some b) p = some (closerOwner c b p) by simp [selStep, hc]]
      exact ih _
    · rw [show selStep c (some b) p = some b by simp [selStep, hc]]
      exact ih _

theorem selOwner_none_iff (owners : PElements) (c : PElement) :
    selOwner owners c = none ↔ ∀ p ∈ owners, compatOwner c p.2 = false := by
  induction owners with
  | nil => simp [selOwner]
  | cons p rest ih =>
    by_cases hc : compatOwner c p.2 = true
    · rw [selOwner, List.foldl_cons, show selStep c none p = some p by simp [selStep, hc]]
      constructor
      · intro h
        have := selFold_isSome c rest p
        rw [h] at this
        simp at this
      · intro h
        have := h p (List.mem_cons_self p rest)
        rw [hc] at this
        simp at this
    · rw [selOwner, List.foldl_cons, show selStep c none p = none by simp [selStep, hc]]
      rw [show (rest.foldl (selStep c) none = none) ↔ selOwner rest c = none from Iff.rfl, ih]
      constructor
      · intro h q hq
        rcases List.mem_cons.mp hq with hq | hq
        · subst hq; exact Bool.not_eq_true _ ▸ by simpa using hc
        · exact h q hq
      · intro h q hq
        exact h q (List.mem_cons_of_mem p hq)

/-- Dictionary lookup `E[j]` on the association-list model of a Python dict. -/
def lookupA (E : PElements) (j : String) : Option PElement :=
  match E with
  | [] => none
  | p :: rest => if p.1 = j then some p.2 else lookupA rest j

/-- Whether carrier pair `c` was assigned (via `potential_candidate`) to the
owner with id `j`. -/
def assignedTo (E : PElements) (j : String) (c : String × PElement) : Bool :=
  match selOwner (ownersOf E) c.2 with
  | none => false
  | some jo => jo.1 == j

theorem lookupA_cons (p : String × PElement) (rest : PElements) (j : String) :
    lookupA (p :: rest) j = if p.1 = j then some p.2 else lookupA rest j := rfl

theorem appendTxt_cons (p : String × PElement) (rest : PElements) (j t : String) :
    appendTxt (p :: rest) j t
      = (if p.1 = j then (p.1, { p.2 with txt := p.2.txt ++ t }) else p)
          :: appendTxt rest j t := rfl

theorem mergeStep_none {E : PElements} {c : String × PElement} (acc : PElements)
    (h : selOwner (ownersOf E) c.2 = none) : mergeStep E acc c = acc := by
  rw [mergeStep, h]

theorem mergeStep_some {E : PElements} {c jo : String × PElement} (acc : PElements)
    (h : selOwner (ownersOf E) c.2 = some jo) :
    mergeStep E acc c = appendTxt acc jo.1 c.2.txt := by
  rw [mergeStep, h]

theorem lookupA_appendTxt_self (E : PElements) (j t : String) :
    lookupA (appendTxt E j t) j
      = (lookupA E j).map (fun el => { el with txt := el.txt ++ t }) := by
  induction E with
  | nil => rfl
  | cons p rest ih =>
    rw [appendTxt_cons]
    by_cases hk : p.1 = j
    · rw [if_pos hk]
      rw [lookupA_cons, if_pos hk, lookupA_cons p rest, if_pos hk]
      rfl
    · rw [if_neg hk]
      rw [lookupA_cons, if_neg hk, lookupA_cons p rest, if_neg hk]
      exact ih

theorem lookupA_appendTxt_ne (E : PElements) (j k t : String) (h : k ≠ j) :
    lookupA (appendTxt E j t) k = lookupA E k := by
  induction E with
  | nil => rfl
  | cons p rest ih =>
    rw [appendTxt_cons]
    by_cases hp : p.1 = j
    · rw [if_pos hp]
      have hne : ¬((p.1, { p.2 with txt := p.2.txt ++ t }).1 = k) := by
        intro hh
        exact h ((show p.1 = k from hh) ▸ hp)
      rw [lookupA_cons, if_neg hne, lookupA_cons p rest,
        if_neg (fun hh : p.1 = k => h (hh ▸ hp))]
      exact ih
    · rw [if_neg hp]
      by_cases hpk : p.1 = k
      · rw [lookupA_cons, if_pos hpk, lookupA_cons p rest, if_pos hpk]
      · rw [lookupA_cons, if_neg hpk, lookupA_cons p rest, if_neg hpk]
        exact ih

theorem lookupA_appendTxt_none (E : PElements) (j k t : String)
    (h : lookupA E k = none) : lookupA (appendTxt E j t) k = none := by
  by_cases hk : k = j
  · subst hk; rw [lookupA_appendTxt_self, h]; rfl
  · rw [lookupA_appendTxt_ne E j k t hk]; exact h

theorem merge_fold_lookup (E : PElements) :
    ∀ (cs : PElements) (acc : PElements) (j : String) (el : PElement),
      lookupA acc j = some el →
      lookupA (cs.foldl (mergeStep E) acc) j
        = some { el with txt := el.txt ++ concatTxts (cs.filter (assignedTo E j)) } := by
  intro cs
  induction cs with
  | nil =>
    intro acc j el h
    simpa [concatTxts] using h
  | cons c rest ih =>
    intro acc j el h
    rw [List.foldl_cons]
    cases hsel : selOwner (ownersOf E) c.2 with
    | none =>
      rw [mergeStep_none acc hsel]
      rw [show (c :: rest).filter (assignedTo E j) = rest.filter (assignedTo E j) by
        simp [List.filter_cons, assignedTo, hsel]]
      exact ih acc j el h
    | some jo =>
      rw [mergeStep_some acc hsel]
      by_cases hj : jo.1 = j
      · have hacc : lookupA (appendTxt acc jo.1 c.2.txt) j
            = some { el with txt := el.txt ++ c.2.txt } := by
          rw [hj, lookupA_appendTxt_self, h]; rfl
        rw [ih (appendTxt acc jo.1 c.2.txt) j { el with txt := el.txt ++ c.2.txt } hacc]
        rw [show (c :: rest).filter (assignedTo E j) = c :: rest.filter (assignedTo E j) by
          simp [List.filter_cons, assignedTo, hsel, hj]]
        simp [concatTxts, String.append_assoc]
      · have hacc : lookupA (appendTxt acc jo.1 c.2.txt) j = some el := by
          rw [lookupA_appendTxt_ne acc jo.1 j c.2.txt (Ne.symm hj)]; exact h
        rw [ih (appendTxt acc jo.1 c.2.txt) j el hacc]
        rw [show (c :: rest).filter (assignedTo E j) = rest.filter (assignedTo E j) by
          simp [List.filter_cons, assignedTo, hsel, hj]]

theorem merge_fold_lookup_none (E : PElements) :
    ∀ (cs : PElements) (acc : PElements) (j : String),
      lookupA acc j = none →
      lookupA (cs.foldl (mergeStep E) acc) j = none := by
  intro cs
  induction cs with
  | nil => intro acc j h; simpa using h
  | cons c rest ih =>
    intro acc j h
    rw [List.foldl_cons]
    cases hsel : selOwner (ownersOf E) c.2 with
    | none =>
      rw [mergeStep_none acc hsel]
      exact ih acc j h
    | some jo =>
      rw [mergeStep_some acc hsel]
      exact ih _ j (lookupA_appendTxt_none acc jo.1 j c.2.txt h)

theorem lookupA_eq_none_of_not_mem_keys :
    ∀ (E : PElements) (j : String), j ∉ E.map Prod.fst → lookupA E j = none := by
  intro E
  induction E with
  | nil => intro j _; rfl
  | cons p rest ih =>
    intro j hj
    simp only [List.map_cons, List.mem_cons] at hj
    push_neg at hj
    rw [lookupA_cons, if_neg (fun h => hj.1 h.symm)]
    exact ih j hj.2

theorem lookupA_filter (q : String × PElement → Bool) :
    ∀ (E : PElements) (j : String) (el : PElement),
      (E.map Prod.fst).Nodup → (j, el) ∈ E →
      lookupA (E.filter q) j = if q (j, el) then some el else none := by
  intro E
  induction E with
  | nil => intro j el _ hm; simp at hm
  | cons p rest ih =>
    intro j el hnd hm
    simp only [List.map_cons, List.nodup_cons] at hnd
    rcases List.mem_cons.mp hm with hm | hm
    · have hp : p = (j, el) := hm.symm
      subst hp
      have hrest : lookupA (rest.filter q) j = none := by
        apply lookupA_eq_none_of_not_mem_keys
        intro hmem
        rcases List.mem_map.mp hmem with ⟨x, hx, hxj⟩
        exact hnd.1 (List.mem_map.mpr ⟨x, List.mem_of_mem_filter hx, hxj⟩)
      cases hq : q (j, el) with
      | true =>
        rw [show ((j, el) :: rest).filter q = (j, el) :: rest.filter q by
          simp [List.filter_cons, hq]]
        rw [lookupA_cons, if_pos rfl]
        simp
      | false =>
        rw [show ((j, el) :: rest).filter q = rest.filter q by simp [List.filter_cons, hq]]
        rw [hrest]
        simp
    · have hne : p.1 ≠ j := by
        intro hj
        exact hnd.1 (List.mem_map.mpr ⟨(j, el), hm, by rw [hj]⟩)
      cases hq : q p with
      | true =>
        rw [show (p :: rest).filter q = p :: rest.filter q by simp [List.filter_cons, hq]]
        rw [lookupA_cons, if_neg hne]
        exact ih j el hnd.2 hm
      | false =>
        rw [show (p :: rest).filter q = rest.filter q by simp [List.filter_cons, hq]]
        exact ih j el hnd.2 hm

/-- Concrete records used for counterexamples and witnesses. -/
def exOwner : PElement :=
  { name := "Dev", layer := "X", rgb := (0, 0, 0), pos_dxf := (0, 0),
    pos_img := (0, 0), txt := "" }

def exCarrier1 : PElement :=
  { name := "Schaltkreis_1", layer := "X", rgb := (0, 0, 0), pos_dxf := (0, 1),
    pos_img := (0, 0), txt := "a " }

def exCarrier2 : PElement :=
  { name := "Schaltkreis_2", layer := "X", rgb := (0, 0, 0), pos_dxf := (1, 0),
    pos_img := (0, 0), txt := "b " }

def exE1 : PElements := [("O", exOwner), ("S1", exCarrier1), ("S2", exCarrier2)]

def exOwnerB : PElement :=
  { name := "Dev2", layer := "B", rgb := (0, 0, 0), pos_dxf := (0, 0),
    pos_img := (0, 0), txt := "" }

def exCarrierAB : PElement :=
  { name := "Schaltkreis_9", layer := "AB", rgb := (0, 0, 0), pos_dxf := (0, 1),
    pos_img := (0, 0), txt := "hello" }

def exE2 : PElements := [("O", exOwnerB), ("S", exCarrierAB)]

def exLoneCarrier : PElement :=
  { name := "Schaltkreis_7", layer := "Z", rgb := (0, 0, 0), pos_dxf := (0, 0),
    pos_img := (0, 0), txt := "x" }

def exE3 : PElements := [("S", exLoneCarrier)]

def exPlain : PElement :=
  { name := "Dev", layer := "X", rgb := (0, 0, 0), pos_dxf := (0, 0),
    pos_img := (0, 0), txt := "t" }

/-- C1 (counterexample): in Pass A one owner absorbs the text of TWO carriers.
`exE1` holds one owner and two layer-compatible in-range carriers; the fused
output extends the owner's (initially empty) text by the contents of both
carriers, contradicting the claim that no owner's text is ever extended by
the content of two or more carriers in one pass. -/
theorem merge_owner_absorbs_two_carriers :
    isCarrier exCarrier1 = true ∧ isCarrier exCarrier2 = true ∧
    isCarrier exOwner = false ∧ exCarrier1.txt = "a " ∧ exCarrier2.txt = "b " ∧
    exOwner.txt = "" ∧
    merge_data exE1 = [("O", { exOwner with txt := "a b " })] := by
  with_unfolding_all decide

/-- C1 (amended): the selection of `merge_data` is per CARRIER, not per owner:
every carrier that selects an owner selects the first-seen closest compatible
one, and each owner's output text is its input text extended by the
concatenated texts of ALL the carriers assigned to it (possibly several). -/
theorem merge_per_carrier_assignment :
    (∀ (owners : PElements) (c : PElement) (r : String × PElement),
      selOwner owners c = some r → FirstMin c owners r) ∧
    (∀ (E : PElements) (j : String) (el : PElement),
      (E.map Prod.fst).Nodup → (j, el) ∈ E → isCarrier el = false →
      lookupA (merge_data E) j
        = some { el with
            txt := el.txt ++ concatTxts ((carriersOf E).filter (assignedTo E j)) }) := by
  constructor
  · exact selOwner_spec
  · intro E j el hnd hm hnc
    have howners : lookupA (ownersOf E) j = some el := by
      rw [ownersOf, lookupA_filter (fun p => !isCarrier p.2) E j el hnd hm]
      simp [hnc]
    exact merge_fold_lookup E (carriersOf E) (ownersOf E) j el howners

theorem merge_per_carrier_assignment_witness :
    FirstMin exCarrier1 [("O", exOwner)] ("O", exOwner) ∧
    lookupA (merge_data exE1) "O"
      = some { exOwner with
          txt := exOwner.txt ++ concatTxts ((carriersOf exE1).filter (assignedTo exE1 "O")) } :=
  ⟨merge_per_carrier_assignment.1 [("O", exOwner)] exCarrier1 ("O", exOwner) (by with_unfolding_all decide),
   merge_per_carrier_assignment.2 exE1 "O" exOwner (by with_unfolding_all decide) (by with_unfolding_all decide) (by with_unfolding_all decide)⟩

/-- C2 (counterexample): a merge happens between records whose layers are
neither equal nor related by the "-TXT" suffix: the owner's layer `"B"` is a
mere substring of the carrier's layer `"AB"`, yet the carrier's text is
appended to the owner. -/
theorem merge_crosses_unrelated_layers :
    exOwnerB.layer ≠ exCarrierAB.layer ∧
    exCarrierAB.layer ≠ exOwnerB.layer ++ "-TXT" ∧
    exOwnerB.layer ≠ exCarrierAB.layer ++ "-TXT" ∧
    exCarrierAB.txt ≠ "" ∧
    merge_data exE2 = [("O", { exOwnerB with txt := "hello" })] := by
  with_unfolding_all decide

/-- C2 (amended): `merge_data` appends a carrier's text to an owner only when
the owner's layer is a contiguous SUBSTRING of the carrier's layer (Python
`in`) and their source-space distance is below 20.  Layer equality and the
"-TXT" suffix relation are special cases of the substring test, but other
substring-related layer pairs merge as well. -/
theorem merge_requires_substring_layer :
    ∀ (owners : PElements) (c : PElement) (r : String × PElement),
      selOwner owners c = some r →
      isSubstring r.2.layer c.layer = true ∧
      sqDist c.pos_dxf r.2.pos_dxf < 400 := by
  intro owners c r h
  rcases selOwner_spec owners c r h with ⟨pre, post, _, hcompat, _, _⟩
  rw [compatOwner, Bool.and_eq_true, decide_eq_true_iff] at hcompat
  exact hcompat

theorem merge_requires_substring_layer_witness :
    isSubstring exOwnerB.layer exCarrierAB.layer = true ∧
    sqDist exCarrierAB.pos_dxf exOwnerB.pos_dxf < 400 :=
  merge_requires_substring_layer [("O", exOwnerB)] exCarrierAB ("O", exOwnerB) (by with_unfolding_all decide)

/-- C3 (counterexample): a carrier with no layer-compatible owner in range is
dropped from the fused record set, and the only serialized side collection
(`proned_txt`, written to `extracted_txt.json` by `main`) is empty — the
carrier appears ONLY in the `print("CHKA: ...")` diagnostic on standard
output, not in any serialized "unattached" collection. -/
theorem unmatched_carrier_absent_from_output :
    isCarrier exLoneCarrier = true ∧
    merge_data exE3 = [] ∧
    mergeChka exE3 = [("S", exLoneCarrier)] ∧
    proned_txt = [] := by
  with_unfolding_all decide

/-- C3 (amended): every carrier with no selected owner lands exactly in the
printed `CHKA` diagnostic list; every carrier (matched or not) is removed
from the fused record set; the serialized side list `proned_txt` is always
empty, so unmatched carriers are reported on standard output only, never in
the program's serialized output. -/
theorem merge_unmatched_only_printed :
    (∀ (E : PElements) (c : String × PElement), c ∈ carriersOf E →
      (c ∈ mergeChka E ↔ selOwner (ownersOf E) c.2 = none)) ∧
    (∀ (E : PElements) (c : String × PElement),
      (E.map Prod.fst).Nodup → c ∈ carriersOf E →
      lookupA (merge_data E) c.1 = none) ∧
    proned_txt = [] := by
  refine ⟨?_, ?_, rfl⟩
  · intro E c hc
    rw [mergeChka, List.mem_filter]
    constructor
    · intro h
      exact Option.isNone_iff_eq_none.mp h.2
    · intro h
      exact ⟨hc, Option.isNone_iff_eq_none.mpr h⟩
  · intro E c hnd hc
    rw [carriersOf, List.mem_filter] at hc
    have howners : lookupA (ownersOf E) c.1 = none := by
      rw [ownersOf, lookupA_filter (fun p => !isCarrier p.2) E c.1 c.2 hnd hc.1]
      simp [hc.2]
    exact merge_fold_lookup_none E (carriersOf E) (ownersOf E) c.1 howners

theorem merge_unmatched_only_printed_witness :
    (("S", exLoneCarrier) ∈ mergeChka exE3 ↔
      selOwner (ownersOf exE3) exLoneCarrier = none) ∧
    lookupA (merge_data exE3) "S" = none :=
  ⟨merge_unmatched_only_printed.1 exE3 ("S", exLoneCarrier) (by with_unfolding_all decide),
   merge_unmatched_only_printed.2.1 exE3 ("S", exLoneCarrier) (by with_unfolding_all decide) (by with_unfolding_all decide)⟩

/-- C10: the Fusion Engine is idempotent on an already-fused record set: if a
record map contains no carrier records (and no empty-text orphans),
`merge_data` returns it unchanged. -/
theorem merge_data_idempotent (E : PElements)
    (h1 : ∀ p ∈ E, isCarrier p.2 = false) (h2 : ∀ p ∈ E, p.2.txt ≠ "") :
    merge_data E = E := by
  have hc : carriersOf E = [] := by
    rw [carriersOf, List.filter_eq_nil_iff]
    intro p hp
    simp [h1 p hp]
  have ho : ownersOf E = E := by
    rw [ownersOf, List.filter_eq_self]
    intro p hp
    simp [h1 p hp]
  rw [merge_data, hc, ho, List.foldl_nil]

theorem merge_data_idempotent_witness :
    merge_data [("A", exPlain)] = [("A", exPlain)] :=
  merge_data_idempotent [("A", exPlain)] (by with_unfolding_all decide) (by with_unfolding_all decide)

/-- The suffix of `l` after its first semicolon, if any; used to model the
regex fragment matching `[^;]*;`. -/
def afterSemi : List Char → Option (List Char)
  | [] => none
  | ch :: r => if ch = ';' then some r else afterSemi r

theorem afterSemi_length : ∀ (l r : List Char), afterSemi l = some r → r.length < l.length := by
  intro l
  induction l with
  | nil => intro r h; simp [afterSemi] at h
  | cons ch t ih =>
    intro r h
    rw [afterSemi] at h
    by_cases hc : ch = ';'
    · rw [if_pos hc] at h
      cases h
      simp
    · rw [if_neg hc] at h
      exact Nat.lt_trans (ih r h) (by simp)

/-- The substitution `re.sub(r"\\[A-Za-z][^;]*;", "", txt)` of `clean_txt`
(parser.py line 219): drop every maximal segment starting with a backslash
followed by a letter and ending at the next semicolon; a candidate start with
no terminating semicolon does not match and is kept verbatim. -/
def subEsc : List Char → List Char
  | [] => []
  | ch :: rest =>
    if ch = '\\' then
      match rest with
      | [] => ['\\']
      | c2 :: rest2 =>
        if c2.isAlpha then
          match h : afterSemi rest2 with
          | some r => subEsc r
          | none => ch :: subEsc (c2 :: rest2)
        else ch :: subEsc (c2 :: rest2)
    else ch :: subEsc rest
termination_by l => l.length
decreasing_by
  all_goals simp only [List.length_cons]
  all_goals try omega
  all_goals exact lt_of_lt_of_le (afterSemi_length _ _ h) (by omega)

/-- The brace removal of `clean_txt` (parser.py line 218). -/
def stripBraces (l : List Char) : List Char :=
  l.filter (fun ch => !(ch == '\x7b' || ch == '\x7d'))

/-- The comma-to-dot replacement of `clean_txt` (parser.py line 220). -/
def commaToDot (l : List Char) : List Char :=
  l.map (fun ch => if ch == ',' then '.' else ch)

/-- `clean_txt` (parser.py lines 217-221). -/
def clean_txt (t : String) : String :=
  String.mk (commaToDot (subEsc (stripBraces t.data)))

/-- Concatenation of a list of strings. -/
def joinStrings : List String → String
  | [] => ""
  | s :: r => s ++ joinStrings r

/-- A rational 2×3 transform matrix, as used by the collector to project
positions (the calibration fitting itself is modelled over the reals
below). -/
structure Mat23Q where
  m00 : ℚ
  m01 : ℚ
  m02 : ℚ
  m10 : ℚ
  m11 : ℚ
  m12 : ℚ
deriving DecidableEq

/-- `apply_M` (parser.py lines 261-263) on the rational matrix model. -/
def apply_MQ (M : Mat23Q) (x y : ℚ) : ℚ × ℚ :=
  (M.m00 * x + M.m01 * y + M.m02, M.m10 * x + M.m11 * y + M.m12)

/-- One INSERT entity as consumed by `collect_items`: handle, display name,
layer, insertion point, resolved colour, and the raw texts of its virtual
TEXT/MTEXT children in order (both branches of parser.py lines 365-379
accumulate `clean_txt(v.dxf.text + " ")`). -/
structure InsertEnt where
  handle : String
  name : String
  layer : String
  insert : ℚ × ℚ
  rgb : ℕ × ℕ × ℕ
  vtexts : List String
deriving DecidableEq

/-- The Python exceptions that the collector pipeline can actually raise. -/
inductive PyError where
  | typeErrorDistNone
  | indexEmptyName
deriving DecidableEq

/-- The `prev_*` cursor variables of `collect_items` (parser.py lines
343-347, 402-406); they are always assigned together, hence one bundle. -/
structure PrevSt where
  id : String
  layer : String
  name : String
  pos : ℚ × ℚ
deriving DecidableEq

/-- The text accumulated from an instance's virtual entities
(parser.py lines 361-379). -/
def entTxt (e : InsertEnt) : String :=
  joinStrings (e.vtexts.map (fun s => clean_txt (s ++ " ")))

/-- Python dict insertion `E[k] = v`: overwrite in place if the key exists,
else append. -/
def dictPut (E : PElements) (k : String) (v : PElement) : PElements :=
  if (lookupA E k).isSome then
    E.map (fun p => if p.1 = k then (k, v) else p)
  else E ++ [(k, v)]

/-- The per-entity body of `collect_items` (parser.py lines 350-408).
The pattern `math.dist(prev_pos, [x, y])` with `prev_pos = None` raises a
`TypeError`, which is the `.error` branch below. -/
def collectStep (M : Mat23Q) (st : Option PrevSt × PElements) (e : InsertEnt) :
    Except PyError (Option PrevSt × PElements) :=
  let layer := e.layer.trim
  let name := e.name.trim
  let iid := e.handle.trim
  let x := e.insert.1
  let y := e.insert.2
  let txt := entTxt e
  let el : PElement :=
    { name := name, layer := layer, rgb := e.rgb, pos_dxf := (x, y),
      pos_img := apply_MQ M x y, txt := txt }
  match st.1 with
  | some p =>
    if p.layer ≠ "" ∧ p.layer ++ "-TXT" = layer then
      .ok (some p, appendTxt st.2 p.id txt)
    else if isSubstring "Schaltkreis_" name then
      if sqDist p.pos (x, y) < 400 then
        .ok (some p, appendTxt st.2 p.id txt)
      else if p.layer = layer ∧ isSubstring "Schaltkreis_" p.name = false then
        .ok (some p, appendTxt st.2 p.id txt)
      else
        .ok (some ⟨iid, layer, name, (x, y)⟩, dictPut st.2 iid el)
    else if p.layer = layer ∧ isSubstring "Schaltkreis_" name = true ∧
        isSubstring "Schaltkreis_" p.name = false then
      .ok (some p, appendTxt st.2 p.id txt)
    else
      .ok (some ⟨iid, layer, name, (x, y)⟩, dictPut st.2 iid el)
  | none =>
    if isSubstring "Schaltkreis_" name then
      .error .typeErrorDistNone
    else
      .ok (some ⟨iid, layer, name, (x, y)⟩, dictPut st.2 iid el)

/-- The Entity Collector `collect_items` (parser.py lines 341-409). -/
def collect_items (M : Mat23Q) (ents : List InsertEnt) : Except PyError PElements := do
  let st ← ents.foldlM (collectStep M) ((none : Option PrevSt), ([] : PElements))
  return st.2

/-- `extract_layer_suffix` (parser.py lines 421-423). -/
def extract_layer_suffix (s : String) : String :=
  (s.splitOn "$").getLastD ""

/-- Models the source helper that takes the last `$`-segment of a name and
returns its first `_`-segment (parser.py lines 411-419); renamed here. -/
def extractHeadSegment (s : String) : String :=
  (((s.splitOn "$").getLastD "").splitOn "_").headD ""

/-- `remove_last_dash_part` (parser.py lines 425-428). -/
def remove_last_dash_part (t : String) : String :=
  if isSubstring "-" t then String.intercalate "-" ((t.splitOn "-").dropLast)
  else t

/-- The per-record body of `clean_data` (parser.py lines 430-448).  Indexing
`element["name"][0]` on an empty display name raises an `IndexError`. -/
def cleanStep (acc : PElements) (kv : String × PElement) : Except PyError PElements :=
  let el := kv.2
  if isSubstring "Polygonsäule" el.name then .ok acc
  else if el.name.take 4 = "XREF" then .ok acc
  else
    match el.name.data with
    | [] => .error .indexEmptyName
    | ch :: _ =>
      if ch = '*' then .ok acc
      else if isSubstring "_Oblique" el.name then .ok acc
      else
        let el2 :=
          if isSubstring "Vorplanung" el.layer || isSubstring "Vorplanung" el.name then
            { el with name := extractHeadSegment el.name,
                      layer := remove_last_dash_part (extract_layer_suffix el.layer) }
          else if isSubstring "-" el.layer = true ∧ el.layer ≠ "E-Stromschiene Variante 2" then
            { el with layer := remove_last_dash_part el.layer }
          else el
        .ok (dictPut acc kv.1 el2)

/-- The cleaning step `clean_data` (parser.py lines 430-448). -/
def clean_data (E : PElements) : Except PyError PElements :=
  E.foldlM cleanStep []

def identM : Mat23Q := ⟨1, 0, 0, 0, 1, 0⟩

/-- A drawing whose FIRST symbol instance matches the annotation-only name
pattern: there is no previous element yet. -/
def entCrash : InsertEnt :=
  { handle := "41", name := "Schaltkreis_A", layer := "L", insert := (0, 0),
    rgb := (0, 0, 0), vtexts := [] }

/-- A record whose display name is empty. -/
def elNoName : PElement :=
  { name := "", layer := "L", rgb := (0, 0, 0), pos_dxf := (0, 0),
    pos_img := (0, 0), txt := "" }

/-- C4: the claim (and the spec's "no entity causes a hard failure") is
violated by the code on two concrete inputs: a sequence whose first INSERT
has an annotation-only name makes `collect_items` evaluate
`math.dist(None, [x, y])` (a `TypeError`), and an entity with an empty
display name makes `clean_data` evaluate `element["name"][0]` (an
`IndexError`).  This theorem evaluates the embedded code at both failing
inputs. -/
theorem collector_hard_failures :
    collect_items identM [entCrash] = .error .typeErrorDistNone ∧
    clean_data [("h", elNoName)] = .error .indexEmptyName :=
  ⟨by with_unfolding_all rfl, by with_unfolding_all rfl⟩

/-- The `ValueError`s that `_bounds_for` (parser.py lines 84-121) can raise,
distinguished by their messages; the spec's taxonomy calls the range ones
`OutOfRangeError`. -/
inductive GridErr where
  | emptyAxis
  | belowRange
  | aboveRange
deriving DecidableEq

/-- The inside-the-range scan of `_bounds_for` (parser.py lines 109-121):
the first adjacent pair of axis entries whose coordinates bracket the value,
with the Python loop's `lo_idx = 0, hi_idx = 1` defaults when no pair
matches. -/
def insideBracket (value : ℚ) (a0 : String × ℚ) (rest : List (String × ℚ)) :
    String × String × ℚ × ℚ :=
  let ax := a0 :: rest
  let n := ax.length
  let loIdx := ((List.range (n - 1)).find? (fun i =>
    decide ((ax.getD i a0).2 ≤ value) && decide (value ≤ (ax.getD (i + 1) a0).2))).getD 0
  let lo := ax.getD loIdx a0
  let hi := ax.getD (loIdx + 1) a0
  (lo.1, hi.1, lo.2, hi.2)

/-- The grid bracket lookup `_bounds_for` (parser.py lines 84-121): find
the two neighbouring labels bounding `value`; outside the range either clamp
(to the first/second or second-to-last/last entries, or to the sole entry of
a one-entry axis) or raise.  The inside scan mirrors the Python loop with
its `lo_idx = 0, hi_idx = 1` defaults. -/
def bounds_for (value : ℚ) (axis : List (String × ℚ)) (clamp : Bool) :
    Except GridErr (String × String × ℚ × ℚ) :=
  match axis with
  | [] => .error .emptyAxis
  | a0 :: rest =>
    let ax := a0 :: rest
    let n := ax.length
    if value ≤ a0.2 then
      if clamp = true ∧ 2 ≤ n then
        let a1 := rest.headD a0
        .ok (a0.1, a1.1, a0.2, a1.2)
      else if clamp = true ∧ n = 1 then
        .ok (a0.1, a0.1, a0.2, a0.2)
      else .error .belowRange
    else
      let alast := ax.getLastD a0
      if alast.2 ≤ value then
        if clamp = true ∧ 2 ≤ n then
          let aprev := ax.dropLast.getLastD a0
          .ok (aprev.1, alast.1, aprev.2, alast.2)
        else if clamp = true ∧ n = 1 then
          .ok (a0.1, a0.1, a0.2, a0.2)
        else .error .aboveRange
      else
        .ok (insideBracket value a0 rest)

theorem bounds_for_false_eq (v : ℚ) (a0 : String × ℚ) (rest : List (String × ℚ)) :
    bounds_for v (a0 :: rest) false =
      if v ≤ a0.2 then .error .belowRange
      else if ((a0 :: rest).getLastD a0).2 ≤ v then .error .aboveRange
      else .ok (insideBracket v a0 rest) := by
  simp only [bounds_for]
  by_cases h1 : v ≤ a0.2
  · rw [if_pos h1, if_pos h1, if_neg (by simp), if_neg (by simp)]
  · rw [if_neg h1, if_neg h1]
    by_cases h2 : ((a0 :: rest).getLastD a0).2 ≤ v
    · rw [if_pos h2, if_pos h2, if_neg (by simp), if_neg (by simp)]
    · rw [if_neg h2, if_neg h2]

/-- C8 (amended): with clamping enabled the lookup is total on every
NONEMPTY axis (the empty axis raises `ValueError("Axis has no entries.")`
regardless of clamping) and clamps out-of-range values to the first/second
or second-to-last/last labelled pair; with clamping disabled on a nonempty
axis it fails exactly when the value is ≤ the first or ≥ the last axis
coordinate — a value EQUAL to a boundary coordinate also fails — and the
failure is propagated to the caller as the `Except.error` result. -/
theorem bounds_for_behaviour :
    (∀ (v : ℚ) (clamp : Bool), bounds_for v [] clamp = .error .emptyAxis) ∧
    (∀ (v : ℚ) (axis : List (String × ℚ)), axis ≠ [] →
      ∃ r, bounds_for v axis true = .ok r) ∧
    (∀ (v : ℚ) (a0 a1 : String × ℚ) (rest : List (String × ℚ)), v ≤ a0.2 →
      bounds_for v (a0 :: a1 :: rest) true = .ok (a0.1, a1.1, a0.2, a1.2)) ∧
    (∀ (v : ℚ) (a0 a1 : String × ℚ) (rest : List (String × ℚ)),
      a0.2 < v → ((a0 :: a1 :: rest).getLastD a0).2 ≤ v →
      bounds_for v (a0 :: a1 :: rest) true
        = .ok (((a0 :: a1 :: rest).dropLast.getLastD a0).1,
            ((a0 :: a1 :: rest).getLastD a0).1,
            ((a0 :: a1 :: rest).dropLast.getLastD a0).2,
            ((a0 :: a1 :: rest).getLastD a0).2)) ∧
    (∀ (v : ℚ) (a0 : String × ℚ) (rest : List (String × ℚ)),
      (bounds_for v (a0 :: rest) false = .error .belowRange ↔ v ≤ a0.2)) ∧
    (∀ (v : ℚ) (a0 : String × ℚ) (rest : List (String × ℚ)),
      (bounds_for v (a0 :: rest) false = .error .aboveRange ↔
        (a0.2 < v ∧ ((a0 :: rest).getLastD a0).2 ≤ v))) ∧
    (∀ (v : ℚ) (a0 : String × ℚ) (rest : List (String × ℚ)),
      ((∃ r, bounds_for v (a0 :: rest) false = .ok r) ↔
        (a0.2 < v ∧ v < ((a0 :: rest).getLastD a0).2))) := by
  refine ⟨fun v clamp => rfl, ?_, ?_, ?_, ?_, ?_, ?_⟩
  · intro v axis hne
    cases axis with
    | nil => exact absurd rfl hne
    | cons a0 rest =>
      simp only [bounds_for]
      by_cases h1 : v ≤ a0.2
      · rw [if_pos h1]
        cases rest with
        | nil =>
          rw [if_neg (by simp), if_pos (by simp)]
          exact ⟨_, rfl⟩
        | cons a1 rest2 =>
          rw [if_pos ⟨by trivial, by simp only [List.length_cons]; omega⟩]
          exact ⟨_, rfl⟩
      · rw [if_neg h1]
        by_cases h2 : ((a0 :: rest).getLastD a0).2 ≤ v
        · rw [if_pos h2]
          cases rest with
          | nil =>
            rw [if_neg (by simp), if_pos (by simp)]
            exact ⟨_, rfl⟩
          | cons a1 rest2 =>
            rw [if_pos ⟨by trivial, by simp only [List.length_cons]; omega⟩]
            exact ⟨_, rfl⟩
        · rw [if_neg h2]
          exact ⟨_, rfl⟩
  · intro v a0 a1 rest h1
    simp only [bounds_for]
    rw [if_pos h1, if_pos ⟨by trivial, by simp only [List.length_cons]; omega⟩]
    rfl
  · intro v a0 a1 rest h1 h2
    simp only [bounds_for]
    rw [if_neg (not_le.mpr h1), if_pos h2,
      if_pos ⟨by trivial, by simp only [List.length_cons]; omega⟩]
  · intro v a0 rest
    rw [bounds_for_false_eq]
    by_cases h1 : v ≤ a0.2
    · rw [if_pos h1]
      exact iff_of_true rfl h1
    · rw [if_neg h1]
      by_cases h2 : ((a0 :: rest).getLastD a0).2 ≤ v
      · rw [if_pos h2]
        exact iff_of_false (by simp) h1
      · rw [if_neg h2]
        exact iff_of_false (by simp) h1
  · intro v a0 rest
    rw [bounds_for_false_eq]
    by_cases h1 : v ≤ a0.2
    · rw [if_pos h1]
      exact iff_of_false (by simp) (fun hc => absurd h1 (not_le.mpr hc.1))
    · rw [if_neg h1]
      by_cases h2 : ((a0 :: rest).getLastD a0).2 ≤ v
      · rw [if_pos h2]
        exact iff_of_true rfl ⟨not_le.mp h1, h2⟩
      · rw [if_neg h2]
        exact iff_of_false (by simp) (fun hc => h2 hc.2)
  · intro v a0 rest
    rw [bounds_for_false_eq]
    by_cases h1 : v ≤ a0.2
    · rw [if_pos h1]
      exact iff_of_false (by simp) (fun hc => absurd h1 (not_le.mpr hc.1))
    · rw [if_neg h1]
      by_cases h2 : ((a0 :: rest).getLastD a0).2 ≤ v
      · rw [if_pos h2]
        exact iff_of_false (by simp) (fun hc => not_le.mpr hc.2 h2)
      · rw [if_neg h2]
        exact iff_of_true ⟨_, rfl⟩ ⟨not_le.mp h1, not_le.mp h2⟩

theorem bounds_for_behaviour_witness :
    (∃ r, bounds_for 50 [("A", 0), ("B", 100)] true = .ok r) ∧
    bounds_for (-7) [("A", 0), ("B", 100)] true = .ok ("A", "B", 0, 100) ∧
    bounds_for 200 [("A", 0), ("B", 100)] true = .ok ("A", "B", 0, 100) ∧
    (bounds_for 0 [("A", 0), ("B", 100)] false = .error .belowRange ↔ (0 : ℚ) ≤ 0) ∧
    (∃ r, bounds_for 50 [("A", 0), ("B", 100)] false = .ok r) :=
  ⟨bounds_for_behaviour.2.1 50 [("A", 0), ("B", 100)] (by simp),
   bounds_for_behaviour.2.2.1 (-7) ("A", 0) ("B", 100) [] (by norm_num),
   bounds_for_behaviour.2.2.2.1 200 ("A", 0) ("B", 100) [] (by norm_num)
     (by with_unfolding_all decide),
   bounds_for_behaviour.2.2.2.2.1 0 ("A", 0) [("B", 100)],
   (bounds_for_behaviour.2.2.2.2.2.2 50 ("A", 0) [("B", 100)]).mpr
     (by with_unfolding_all decide)⟩

/-- C8 (counterexample): with clamping disabled, a value EQUAL to the first
axis coordinate raises (`value <= axis[0][1]` is an inclusive test), although
the claim says boundary-equal values succeed; and with clamping enabled the
EMPTY axis still raises, although the claim says clamping never raises for
any axis. -/
theorem bounds_for_cex :
    bounds_for 0 [("A", 0), ("B", 100)] false = .error .belowRange ∧
    bounds_for 0 [] true = .error .emptyAxis :=
  ⟨by with_unfolding_all rfl, rfl⟩

/-- Rule 1 of `_describe_position` (parser.py line 138): the centre box with
`center_r = 0.22`. -/
def ruleCenter (nx ny : ℚ) : Bool :=
  decide (|nx - 0.5| ≤ 0.22 ∧ |ny - 0.5| ≤ 0.22)

/-- Rule 2 (line 142), corner box `corner_box = 0.28`. -/
def ruleUpperLeftCorner (nx ny : ℚ) : Bool :=
  decide (nx ≤ 0.28 ∧ ny ≤ 0.28)

/-- Rule 3 (line 144). -/
def ruleUpperRightCorner (nx ny : ℚ) : Bool :=
  decide (1 - 0.28 ≤ nx ∧ ny ≤ 0.28)

/-- Rule 4 (line 146). -/
def ruleLowerLeftCorner (nx ny : ℚ) : Bool :=
  decide (nx ≤ 0.28 ∧ 1 - 0.28 ≤ ny)

/-- Rule 5 (line 148). -/
def ruleLowerRightCorner (nx ny : ℚ) : Bool :=
  decide (1 - 0.28 ≤ nx ∧ 1 - 0.28 ≤ ny)

/-- Rule 6 (line 152), edge band `edge_band = 0.05`. -/
def ruleLeftSide (nx : ℚ) : Bool := decide (nx ≤ 0.05)

/-- Rule 7 (line 154). -/
def ruleRightSide (nx : ℚ) : Bool := decide (1 - 0.05 ≤ nx)

/-- Rule 8 (line 156). -/
def ruleUpperSide (ny : ℚ) : Bool := decide (ny ≤ 0.05)

/-- Rule 9 (line 158). -/
def ruleLowerSide (ny : ℚ) : Bool := decide (1 - 0.05 ≤ ny)

/-- Rule 10 (line 162). -/
def ruleUpperLeftArea (nx ny : ℚ) : Bool := decide (ny < 0.5 ∧ nx < 0.5)

/-- Rule 11 (line 164). -/
def ruleUpperRightArea (nx ny : ℚ) : Bool := decide (ny < 0.5 ∧ 0.5 ≤ nx)

/-- Rule 12 (line 166). -/
def ruleLowerLeftArea (nx ny : ℚ) : Bool := decide (0.5 ≤ ny ∧ nx < 0.5)

/-- Rule 13, the fallback region of line 168. -/
def ruleLowerRightArea (nx ny : ℚ) : Bool := decide (0.5 ≤ ny ∧ 0.5 ≤ nx)

/-- The in-cell classifier `_describe_position` (parser.py lines 127-168)
with its default thresholds, as called by
`assign_chessboard_and_position`: the first matching rule wins. -/
def describe_position (nx ny : ℚ) : String :=
  if ruleCenter nx ny then "center"
  else if ruleUpperLeftCorner nx ny then "upper left corner"
  else if ruleUpperRightCorner nx ny then "upper right corner"
  else if ruleLowerLeftCorner nx ny then "lower left corner"
  else if ruleLowerRightCorner nx ny then "lower right corner"
  else if ruleLeftSide nx then "left side"
  else if ruleRightSide nx then "right side"
  else if ruleUpperSide ny then "upper side"
  else if ruleLowerSide ny then "lower side"
  else if ruleUpperLeftArea nx ny then "upper left area"
  else if ruleUpperRightArea nx ny then "upper right area"
  else if ruleLowerLeftArea nx ny then "lower left area"
  else "lower right area"

/-- The thirteen labels of the classifier. -/
def positionLabels : List String :=
  ["center", "upper left corner", "upper right corner", "lower left corner",
   "lower right corner", "left side", "right side", "upper side", "lower side",
   "upper left area", "upper right area", "lower left area", "lower right area"]

/-- C9 (counterexample): the rule ranges are NOT pairwise disjoint: at
`(0.28, 0.28)` (inside the unit cell) both the centre rule
(`|0.28 - 0.5| = 0.22 ≤ 0.22`) and the upper-left-corner rule
(`0.28 ≤ 0.28`) match; only the evaluation order makes the result unique. -/
theorem describe_rules_overlap :
    ruleCenter 0.28 0.28 = true ∧ ruleUpperLeftCorner 0.28 0.28 = true ∧
    ((0 : ℚ) ≤ 0.28 ∧ (0.28 : ℚ) ≤ 1) ∧
    describe_position 0.28 0.28 = "center" := by
  refine ⟨by with_unfolding_all rfl, by with_unfolding_all rfl,
    ⟨by norm_num, by norm_num⟩, ?_⟩
  rw [describe_position, if_pos (by with_unfolding_all rfl)]

theorem mem_ite {c : Prop} [Decidable c] {L : List String} {a b : String}
    (ha : a ∈ L) (hb : b ∈ L) : (if c then a else b) ∈ L := by
  split_ifs <;> assumption

/-- C9 (amended): the classifier is a total function returning exactly one of
the thirteen labels for every `(nx, ny)` in `[0,1] × [0,1]` (the rules are
evaluated in order and the first match wins), but the thirteen rule regions
are not pairwise disjoint — overlaps are resolved by rule priority, not by
the regions being disjoint. -/
theorem describe_position_total :
    ∀ nx ny : ℚ, 0 ≤ nx → nx ≤ 1 → 0 ≤ ny → ny ≤ 1 →
      describe_position nx ny ∈ positionLabels := by
  intro nx ny _ _ _ _
  rw [describe_position]
  refine mem_ite ?_ (mem_ite ?_ (mem_ite ?_ (mem_ite ?_ (mem_ite ?_ (mem_ite ?_
    (mem_ite ?_ (mem_ite ?_ (mem_ite ?_ (mem_ite ?_ (mem_ite ?_ (mem_ite ?_ ?_)))))))))))
  all_goals simp [positionLabels]

theorem describe_position_total_witness :
    describe_position 0.5 0.5 ∈ positionLabels :=
  describe_position_total 0.5 0.5 (by norm_num) (by norm_num) (by norm_num) (by norm_num)

/-- The 2×3 affine transform `[[a, b, tx], [c, d, ty]]` assembled by
`fit_affine` (parser.py line 254). -/
structure AffineT where
  a : ℚ
  b : ℚ
  tx : ℚ
  c : ℚ
  d : ℚ
  ty : ℚ
deriving DecidableEq

/-- One control-point pair: source point and target point. -/
abbrev CPairQ := (ℚ × ℚ) × (ℚ × ℚ)

/-- Residual of the X-row `[x, y, 0, 0, 1, 0] · θ - X` of the `fit_affine`
system (parser.py line 251) at one control pair. -/
def exRes (M : AffineT) (pr : CPairQ) : ℚ :=
  M.a * pr.1.1 + M.b * pr.1.2 + M.tx - pr.2.1

/-- Residual of the Y-row `[0, 0, x, y, 0, 1] · θ - Y` (parser.py line 251). -/
def eyRes (M : AffineT) (pr : CPairQ) : ℚ :=
  M.c * pr.1.1 + M.d * pr.1.2 + M.ty - pr.2.2

/-- Total squared residualQ `‖A·θ - B‖²` of a candidate transform over the
fitting pairs, with `A`, `B` the rows assembled by `fit_affine`
(parser.py lines 249-252). -/
def residualQ (ps : List CPairQ) (M : AffineT) : ℚ :=
  (ps.map (fun pr => exRes M pr * exRes M pr + eyRes M pr * eyRes M pr)).sum

/-- The normal equations `Aᵀ(A·θ - B) = 0` of the `fit_affine` system.
`np.linalg.lstsq` (parser.py line 253) is modelled by its documented
contract: the vector it returns is a least-squares solution, i.e. a solution
of these normal equations (this holds for every rank of `A`). -/
def normalEqs (ps : List CPairQ) (M : AffineT) : Prop :=
  (ps.map (fun pr => pr.1.1 * exRes M pr)).sum = 0 ∧
  (ps.map (fun pr => pr.1.2 * exRes M pr)).sum = 0 ∧
  (ps.map (fun pr => exRes M pr)).sum = 0 ∧
  (ps.map (fun pr => pr.1.1 * eyRes M pr)).sum = 0 ∧
  (ps.map (fun pr => pr.1.2 * eyRes M pr)).sum = 0 ∧
  (ps.map (fun pr => eyRes M pr)).sum = 0

/-- The X-part of the parameter difference of two candidate transforms,
evaluated on a control pair. -/
def deltaX (M M' : AffineT) (pr : CPairQ) : ℚ :=
  (M'.a - M.a) * pr.1.1 + (M'.b - M.b) * pr.1.2 + (M'.tx - M.tx)

/-- The Y-part of the parameter difference. -/
def deltaY (M M' : AffineT) (pr : CPairQ) : ℚ :=
  (M'.c - M.c) * pr.1.1 + (M'.d - M.d) * pr.1.2 + (M'.ty - M.ty)

theorem residualQ_expand (ps : List CPairQ) (M M' : AffineT) :
    residualQ ps M' = residualQ ps M
      + 2 * ((M'.a - M.a) * (ps.map (fun pr => pr.1.1 * exRes M pr)).sum
           + (M'.b - M.b) * (ps.map (fun pr => pr.1.2 * exRes M pr)).sum
           + (M'.tx - M.tx) * (ps.map (fun pr => exRes M pr)).sum
           + (M'.c - M.c) * (ps.map (fun pr => pr.1.1 * eyRes M pr)).sum
           + (M'.d - M.d) * (ps.map (fun pr => pr.1.2 * eyRes M pr)).sum
           + (M'.ty - M.ty) * (ps.map (fun pr => eyRes M pr)).sum)
      + (ps.map (fun pr => deltaX M M' pr * deltaX M M' pr
           + deltaY M M' pr * deltaY M M' pr)).sum := by
  induction ps with
  | nil =>
    simp [residualQ]
  | cons pr ps ih =>
    simp only [residualQ, List.map_cons, List.sum_cons] at ih ⊢
    simp only [exRes, eyRes, deltaX, deltaY] at ih ⊢
    linear_combination ih

theorem deltaSum_nonneg (ps : List CPairQ) (M M' : AffineT) :
    0 ≤ (ps.map (fun pr => deltaX M M' pr * deltaX M M' pr
        + deltaY M M' pr * deltaY M M' pr)).sum := by
  induction ps with
  | nil => simp
  | cons pr ps ih =>
    simp only [List.map_cons, List.sum_cons]
    have h1 : 0 ≤ deltaX M M' pr * deltaX M M' pr := mul_self_nonneg _
    have h2 : 0 ≤ deltaY M M' pr * deltaY M M' pr := mul_self_nonneg _
    linarith

/-- C7: a transform satisfying the `fit_affine` normal equations (which is
what `np.linalg.lstsq` returns for every 3+ point input) has total squared
residualQ over the fitting pairs less than or equal to that of every other
candidate 2×3 affine transform — ordinary-least-squares optimality. -/
theorem fit_affine_least_squares :
    ∀ (ps : List CPairQ) (M Mo : AffineT), 3 ≤ ps.length → normalEqs ps M →
      residualQ ps M ≤ residualQ ps Mo := by
  intro ps M Mo _ hne
  obtain ⟨h1, h2, h3, h4, h5, h6⟩ := hne
  have hexp := residualQ_expand ps M Mo
  rw [h1, h2, h3, h4, h5, h6] at hexp
  have hq := deltaSum_nonneg ps M Mo
  rw [hexp]
  linarith

def exPairs3 : List CPairQ := [((0, 0), (0, 0)), ((1, 0), (1, 0)), ((0, 1), (0, 1))]

def exAffineId : AffineT := ⟨1, 0, 0, 0, 1, 0⟩

def exAffineZero : AffineT := ⟨0, 0, 0, 0, 0, 0⟩

theorem fit_affine_least_squares_witness :
    residualQ exPairs3 exAffineId ≤ residualQ exPairs3 exAffineZero :=
  fit_affine_least_squares exPairs3 exAffineId exAffineZero
    (by with_unfolding_all decide)
    (by refine ⟨?_, ?_, ?_, ?_, ?_, ?_⟩ <;> with_unfolding_all decide)

/-- The `ValueError`s of the Calibration Fitter (parser.py lines 239, 259),
with the spec's taxonomy names. -/
inductive CalibError where
  | insufficientCalibration
  | degenerateInput
deriving DecidableEq

/-- A real 2×3 transform matrix as returned by the Calibration Fitter. -/
structure Mat23R where
  m00 : ℝ
  m01 : ℝ
  m02 : ℝ
  m10 : ℝ
  m11 : ℝ
  m12 : ℝ

/-- `apply_M` (parser.py lines 261-263). -/
def apply_M (M : Mat23R) (x y : ℝ) : ℝ × ℝ :=
  (M.m00 * x + M.m01 * y + M.m02, M.m10 * x + M.m11 * y + M.m12)

/-- `np.clip(a, lo, hi)`. -/
def clipR (a lo hi : ℝ) : ℝ := min (max a lo) hi

open Classical in
/-- `fit_similarity_from_two` (parser.py lines 235-246): fit the similarity
transform taking the calibration baseline `p1 → p2` onto `q1 → q2`;
`np.linalg.norm` is the Euclidean norm `√(x² + y²)`. -/
noncomputable def fit_similarity_from_two (p1 p2 q1 q2 : ℝ × ℝ) :
    Except CalibError Mat23R :=
  let v1 : ℝ × ℝ := (p2.1 - p1.1, p2.2 - p1.2)
  let v2 : ℝ × ℝ := (q2.1 - q1.1, q2.2 - q1.2)
  let n1 := Real.sqrt (v1.1 ^ 2 + v1.2 ^ 2)
  let n2 := Real.sqrt (v2.1 ^ 2 + v2.2 ^ 2)
  if n1 = 0 ∨ n2 = 0 then .error .degenerateInput
  else
    let s := n2 / n1
    let v1n : ℝ × ℝ := (v1.1 / n1, v1.2 / n1)
    let v2n : ℝ × ℝ := (v2.1 / n2, v2.2 / n2)
    let cos := clipR (v1n.1 * v2n.1 + v1n.2 * v2n.2) (-1) 1
    let sin := v1n.1 * v2n.2 - v1n.2 * v2n.1
    let t0 := q1.1 - s * (cos * p1.1 - sin * p1.2)
    let t1 := q1.2 - s * (sin * p1.1 + cos * p1.2)
    .ok ⟨s * cos, s * (-sin), t0, s * sin, s * cos, t1⟩

/-- `fit_affine` (parser.py lines 248-254).  `np.linalg.lstsq` is modelled by
the normal-equations solution of the assembled system (via Cramer's rule on
the two decoupled 3×3 blocks), which is what `lstsq` computes whenever the
system has full rank; `lstsq` never raises, and this model is likewise total
(in the rank-deficient case `lstsq` returns the minimum-norm least-squares
solution while this model divides by a zero determinant — no claim depends
on the value in that case, only on totality; the optimality property itself
is stated against the normal equations in `fit_affine_least_squares`). -/
noncomputable def fit_affine (pairs : List ((ℝ × ℝ) × (ℝ × ℝ))) : Mat23R :=
  let n : ℝ := pairs.length
  let sxx := (pairs.map (fun pr => pr.1.1 * pr.1.1)).sum
  let sxy := (pairs.map (fun pr => pr.1.1 * pr.1.2)).sum
  let syy := (pairs.map (fun pr => pr.1.2 * pr.1.2)).sum
  let sx := (pairs.map (fun pr => pr.1.1)).sum
  let sy := (pairs.map (fun pr => pr.1.2)).sum
  let sxX := (pairs.map (fun pr => pr.1.1 * pr.2.1)).sum
  let syX := (pairs.map (fun pr => pr.1.2 * pr.2.1)).sum
  let sX := (pairs.map (fun pr => pr.2.1)).sum
  let sxY := (pairs.map (fun pr => pr.1.1 * pr.2.2)).sum
  let syY := (pairs.map (fun pr => pr.1.2 * pr.2.2)).sum
  let sY := (pairs.map (fun pr => pr.2.2)).sum
  let det3 := fun (a b c d e f g h i : ℝ) =>
    a * (e * i - f * h) - b * (d * i - f * g) + c * (d * h - e * g)
  let dd := det3 sxx sxy sx sxy syy sy sx sy n
  ⟨det3 sxX sxy sx syX syy sy sX sy n / dd,
   det3 sxx sxX sx sxy syX sy sx sX n / dd,
   det3 sxx sxy sxX sxy syy syX sx sy sX / dd,
   det3 sxY sxy sx syY syy sy sY sy n / dd,
   det3 sxx sxY sx sxy syY sy sx sY n / dd,
   det3 sxx sxy sxY sxy syy syY sx sy sY / dd⟩

/-- `fit_transform` (parser.py lines 256-259): dispatch on the number of
calibration pairs. -/
noncomputable def fit_transform (pairs : List ((ℝ × ℝ) × (ℝ × ℝ))) :
    Except CalibError Mat23R :=
  match pairs with
  | a :: b :: c :: rest => .ok (fit_affine (a :: b :: c :: rest))
  | [pq1, pq2] => fit_similarity_from_two pq1.1 pq2.1 pq1.2 pq2.2
  | _ => .error .insufficientCalibration

theorem fit_transform_two (p1 q1 p2 q2 : ℝ × ℝ) :
    fit_transform [(p1, q1), (p2, q2)] = fit_similarity_from_two p1 p2 q1 q2 := rfl

theorem sqrt_norm_eq_zero_iff (a b : ℝ) :
    Real.sqrt (a ^ 2 + b ^ 2) = 0 ↔ (a = 0 ∧ b = 0) := by
  rw [Real.sqrt_eq_zero (by positivity)]
  constructor
  · intro h
    constructor <;> nlinarith [sq_nonneg a, sq_nonneg b]
  · rintro ⟨rfl, rfl⟩
    norm_num

theorem degenerate_cond_iff (p1 p2 q1 q2 : ℝ × ℝ) :
    (Real.sqrt ((p2.1 - p1.1) ^ 2 + (p2.2 - p1.2) ^ 2) = 0 ∨
      Real.sqrt ((q2.1 - q1.1) ^ 2 + (q2.2 - q1.2) ^ 2) = 0) ↔
    (p1 = p2 ∨ q1 = q2) := by
  rw [sqrt_norm_eq_zero_iff, sqrt_norm_eq_zero_iff]
  constructor
  · rintro (⟨h1, h2⟩ | ⟨h1, h2⟩)
    · exact Or.inl (Prod.ext_iff.mpr ⟨(sub_eq_zero.mp h1).symm, (sub_eq_zero.mp h2).symm⟩)
    · exact Or.inr (Prod.ext_iff.mpr ⟨(sub_eq_zero.mp h1).symm, (sub_eq_zero.mp h2).symm⟩)
  · rintro (rfl | rfl)
    · exact Or.inl ⟨by ring, by ring⟩
    · exact Or.inr ⟨by ring, by ring⟩

/-- C5: `fit_transform` fails with `InsufficientCalibrationError` exactly on
fewer than 2 pairs; with exactly 2 pairs it fails with
`DegenerateInputError` exactly when the two source points or the two target
points coincide, and returns a `Transform` otherwise; with 3 or more pairs
it always returns a `Transform`. -/
theorem fit_transform_errors :
    (∀ pairs : List ((ℝ × ℝ) × (ℝ × ℝ)), pairs.length < 2 →
      fit_transform pairs = .error .insufficientCalibration) ∧
    (∀ p1 q1 p2 q2 : ℝ × ℝ,
      (fit_transform [(p1, q1), (p2, q2)] = .error .degenerateInput ↔
        (p1 = p2 ∨ q1 = q2)) ∧
      (p1 ≠ p2 → q1 ≠ q2 → ∃ M, fit_transform [(p1, q1), (p2, q2)] = .ok M)) ∧
    (∀ pairs : List ((ℝ × ℝ) × (ℝ × ℝ)), 3 ≤ pairs.length →
      ∃ M, fit_transform pairs = .ok M) := by
  refine ⟨?_, ?_, ?_⟩
  · intro pairs h
    match pairs with
    | [] => rfl
    | [_] => rfl
    | _ :: _ :: _ => simp only [List.length_cons] at h; omega
  · intro p1 q1 p2 q2
    constructor
    · rw [fit_transform_two]
      simp only [fit_similarity_from_two]
      by_cases hc : Real.sqrt ((p2.1 - p1.1) ^ 2 + (p2.2 - p1.2) ^ 2) = 0 ∨
          Real.sqrt ((q2.1 - q1.1) ^ 2 + (q2.2 - q1.2) ^ 2) = 0
      · rw [if_pos hc]
        exact iff_of_true rfl ((degenerate_cond_iff p1 p2 q1 q2).mp hc)
      · rw [if_neg hc]
        exact iff_of_false (by simp) (fun h => hc ((degenerate_cond_iff p1 p2 q1 q2).mpr h))
    · intro hp hq
      rw [fit_transform_two]
      simp only [fit_similarity_from_two]
      rw [if_neg (fun hc => ((degenerate_cond_iff p1 p2 q1 q2).mp hc).elim hp hq)]
      exact ⟨_, rfl⟩
  · intro pairs h
    match pairs with
    | [] => simp at h
    | [_] => simp at h
    | [_, _] => simp at h
    | a :: b :: c :: rest => exact ⟨_, rfl⟩

theorem fit_transform_errors_witness :
    fit_transform ([] : List ((ℝ × ℝ) × (ℝ × ℝ))) = .error .insufficientCalibration ∧
    fit_transform [(((0 : ℝ), (0 : ℝ)), ((1 : ℝ), (2 : ℝ))),
        (((0 : ℝ), (0 : ℝ)), ((3 : ℝ), (4 : ℝ)))] = .error .degenerateInput ∧
    (∃ M, fit_transform [(((0 : ℝ), (0 : ℝ)), ((0 : ℝ), (0 : ℝ))),
        (((1 : ℝ), (0 : ℝ)), ((1 : ℝ), (0 : ℝ))),
        (((0 : ℝ), (1 : ℝ)), ((0 : ℝ), (1 : ℝ)))] = .ok M) :=
  ⟨fit_transform_errors.1 [] (by simp),
   (fit_transform_errors.2.1 (0, 0) (1, 2) (0, 0) (3, 4)).1.mpr (Or.inl rfl),
   fit_transform_errors.2.2 _ (by simp)⟩

theorem sim_shift_x (x1 y1 x2 y2 X1 Y1 X2 Y2 n1 n2 : ℝ)
    (hn1 : n1 ≠ 0) (hn2 : n2 ≠ 0)
    (hsq1 : n1 ^ 2 = (x2 - x1) ^ 2 + (y2 - y1) ^ 2) :
    (n2 / n1) * (((x2 - x1) / n1) * ((X2 - X1) / n2)
        + ((y2 - y1) / n1) * ((Y2 - Y1) / n2)) * (x2 - x1)
      - (n2 / n1) * (((x2 - x1) / n1) * ((Y2 - Y1) / n2)
        - ((y2 - y1) / n1) * ((X2 - X1) / n2)) * (y2 - y1)
    = X2 - X1 := by
  field_simp
  linear_combination (X1 - X2) * n2 * hsq1

theorem sim_shift_y (x1 y1 x2 y2 X1 Y1 X2 Y2 n1 n2 : ℝ)
    (hn1 : n1 ≠ 0) (hn2 : n2 ≠ 0)
    (hsq1 : n1 ^ 2 = (x2 - x1) ^ 2 + (y2 - y1) ^ 2) :
    (n2 / n1) * (((x2 - x1) / n1) * ((Y2 - Y1) / n2)
        - ((y2 - y1) / n1) * ((X2 - X1) / n2)) * (x2 - x1)
      + (n2 / n1) * (((x2 - x1) / n1) * ((X2 - X1) / n2)
        + ((y2 - y1) / n1) * ((Y2 - Y1) / n2)) * (y2 - y1)
    = Y2 - Y1 := by
  field_simp
  linear_combination (Y1 - Y2) * n2 * hsq1

theorem dot_bounds (x1 y1 x2 y2 X1 Y1 X2 Y2 n1 n2 : ℝ)
    (hn1 : 0 < n1) (hn2 : 0 < n2)
    (hsq1 : n1 ^ 2 = (x2 - x1) ^ 2 + (y2 - y1) ^ 2)
    (hsq2 : n2 ^ 2 = (X2 - X1) ^ 2 + (Y2 - Y1) ^ 2) :
    -1 ≤ ((x2 - x1) / n1) * ((X2 - X1) / n2) + ((y2 - y1) / n1) * ((Y2 - Y1) / n2) ∧
    ((x2 - x1) / n1) * ((X2 - X1) / n2) + ((y2 - y1) / n1) * ((Y2 - Y1) / n2) ≤ 1 := by
  have hN : 0 < n1 * n2 := mul_pos hn1 hn2
  have hdot_eq : ((x2 - x1) / n1) * ((X2 - X1) / n2) + ((y2 - y1) / n1) * ((Y2 - Y1) / n2)
      = ((x2 - x1) * (X2 - X1) + (y2 - y1) * (Y2 - Y1)) / (n1 * n2) := by
    field_simp
  have hCS : ((x2 - x1) * (X2 - X1) + (y2 - y1) * (Y2 - Y1)) ^ 2 ≤ (n1 * n2) ^ 2 := by
    have h1 : ((x2 - x1) * (X2 - X1) + (y2 - y1) * (Y2 - Y1)) ^ 2
        ≤ ((x2 - x1) ^ 2 + (y2 - y1) ^ 2) * ((X2 - X1) ^ 2 + (Y2 - Y1) ^ 2) := by
      nlinarith [sq_nonneg ((x2 - x1) * (Y2 - Y1) - (y2 - y1) * (X2 - X1))]
    calc ((x2 - x1) * (X2 - X1) + (y2 - y1) * (Y2 - Y1)) ^ 2
        ≤ ((x2 - x1) ^ 2 + (y2 - y1) ^ 2) * ((X2 - X1) ^ 2 + (Y2 - Y1) ^ 2) := h1
      _ = (n1 * n2) ^ 2 := by rw [mul_pow, hsq1, hsq2]
  constructor
  · rw [hdot_eq, le_div_iff hN]
    nlinarith [hCS, hN]
  · rw [hdot_eq, div_le_one hN]
    nlinarith [hCS, hN]

/-- C6: for two control pairs with non-coincident source points and
non-coincident target points the fitted similarity transform maps the first
source point exactly onto the first target point and the second source point
exactly onto the second target point; in particular, the calibration pairs
`(0,0)→(0,100)` and `(10,0)→(0,0)` yield a transform that maps `(5,0)` to
`(0,50)`. -/
theorem fit_similarity_maps_endpoints :
    (∀ p1 p2 q1 q2 : ℝ × ℝ, p1 ≠ p2 → q1 ≠ q2 →
      ∃ M, fit_similarity_from_two p1 p2 q1 q2 = .ok M ∧
        apply_M M p1.1 p1.2 = q1 ∧ apply_M M p2.1 p2.2 = q2) ∧
    (∃ M, fit_transform [(((0 : ℝ), (0 : ℝ)), ((0 : ℝ), (100 : ℝ))),
        (((10 : ℝ), (0 : ℝ)), ((0 : ℝ), (0 : ℝ)))] = .ok M ∧
      apply_M M 5 0 = (0, 50)) := by
  have hmid : ∀ (M : Mat23R) (x1 y1 x2 y2 : ℝ),
      apply_M M ((x1 + x2) / 2) ((y1 + y2) / 2)
        = (((apply_M M x1 y1).1 + (apply_M M x2 y2).1) / 2,
           ((apply_M M x1 y1).2 + (apply_M M x2 y2).2) / 2) := by
    intro M x1 y1 x2 y2
    simp only [apply_M]
    exact Prod.ext_iff.mpr ⟨by ring, by ring⟩
  have gen : ∀ p1 p2 q1 q2 : ℝ × ℝ, p1 ≠ p2 → q1 ≠ q2 →
      ∃ M, fit_similarity_from_two p1 p2 q1 q2 = .ok M ∧
        apply_M M p1.1 p1.2 = q1 ∧ apply_M M p2.1 p2.2 = q2 := by
    intro p1 p2 q1 q2 hp hq
    have hA1 : (0 : ℝ) < (p2.1 - p1.1) ^ 2 + (p2.2 - p1.2) ^ 2 := by
      by_contra hle
      push_neg at hle
      have h1 : (p2.1 - p1.1) ^ 2 = 0 :=
        le_antisymm (by nlinarith [sq_nonneg (p2.2 - p1.2)]) (sq_nonneg _)
      have h2 : (p2.2 - p1.2) ^ 2 = 0 :=
        le_antisymm (by nlinarith [sq_nonneg (p2.1 - p1.1)]) (sq_nonneg _)
      exact hp (Prod.ext_iff.mpr ⟨(sub_eq_zero.mp (sq_eq_zero_iff.mp h1)).symm,
        (sub_eq_zero.mp (sq_eq_zero_iff.mp h2)).symm⟩)
    have hA2 : (0 : ℝ) < (q2.1 - q1.1) ^ 2 + (q2.2 - q1.2) ^ 2 := by
      by_contra hle
      push_neg at hle
      have h1 : (q2.1 - q1.1) ^ 2 = 0 :=
        le_antisymm (by nlinarith [sq_nonneg (q2.2 - q1.2)]) (sq_nonneg _)
      have h2 : (q2.2 - q1.2) ^ 2 = 0 :=
        le_antisymm (by nlinarith [sq_nonneg (q2.1 - q1.1)]) (sq_nonneg _)
      exact hq (Prod.ext_iff.mpr ⟨(sub_eq_zero.mp (sq_eq_zero_iff.mp h1)).symm,
        (sub_eq_zero.mp (sq_eq_zero_iff.mp h2)).symm⟩)
    have hn1pos : 0 < Real.sqrt ((p2.1 - p1.1) ^ 2 + (p2.2 - p1.2) ^ 2) :=
      Real.sqrt_pos.mpr hA1
    have hn2pos : 0 < Real.sqrt ((q2.1 - q1.1) ^ 2 + (q2.2 - q1.2) ^ 2) :=
      Real.sqrt_pos.mpr hA2
    have hsq1 : (Real.sqrt ((p2.1 - p1.1) ^ 2 + (p2.2 - p1.2) ^ 2)) ^ 2
        = (p2.1 - p1.1) ^ 2 + (p2.2 - p1.2) ^ 2 := Real.sq_sqrt hA1.le
    have hsq2 : (Real.sqrt ((q2.1 - q1.1) ^ 2 + (q2.2 - q1.2) ^ 2)) ^ 2
        = (q2.1 - q1.1) ^ 2 + (q2.2 - q1.2) ^ 2 := Real.sq_sqrt hA2.le
    have hcond : ¬(Real.sqrt ((p2.1 - p1.1) ^ 2 + (p2.2 - p1.2) ^ 2) = 0 ∨
        Real.sqrt ((q2.1 - q1.1) ^ 2 + (q2.2 - q1.2) ^ 2) = 0) := by
      push_neg
      exact ⟨ne_of_gt hn1pos, ne_of_gt hn2pos⟩
    have hbounds := dot_bounds p1.1 p1.2 p2.1 p2.2 q1.1 q1.2 q2.1 q2.2
      (Real.sqrt ((p2.1 - p1.1) ^ 2 + (p2.2 - p1.2) ^ 2))
      (Real.sqrt ((q2.1 - q1.1) ^ 2 + (q2.2 - q1.2) ^ 2))
      hn1pos hn2pos hsq1 hsq2
    have hclip : clipR (((p2.1 - p1.1) / Real.sqrt ((p2.1 - p1.1) ^ 2 + (p2.2 - p1.2) ^ 2))
          * ((q2.1 - q1.1) / Real.sqrt ((q2.1 - q1.1) ^ 2 + (q2.2 - q1.2) ^ 2))
        + ((p2.2 - p1.2) / Real.sqrt ((p2.1 - p1.1) ^ 2 + (p2.2 - p1.2) ^ 2))
          * ((q2.2 - q1.2) / Real.sqrt ((q2.1 - q1.1) ^ 2 + (q2.2 - q1.2) ^ 2))) (-1) 1
        = ((p2.1 - p1.1) / Real.sqrt ((p2.1 - p1.1) ^ 2 + (p2.2 - p1.2) ^ 2))
          * ((q2.1 - q1.1) / Real.sqrt ((q2.1 - q1.1) ^ 2 + (q2.2 - q1.2) ^ 2))
        + ((p2.2 - p1.2) / Real.sqrt ((p2.1 - p1.1) ^ 2 + (p2.2 - p1.2) ^ 2))
          * ((q2.2 - q1.2) / Real.sqrt ((q2.1 - q1.1) ^ 2 + (q2.2 - q1.2) ^ 2)) := by
      rw [clipR, max_eq_left hbounds.1, min_eq_left hbounds.2]
    refine ⟨?_, ?_, ?_, ?_⟩
    rotate_left 1
    · simp only [fit_similarity_from_two]
      rw [if_neg hcond]
      exact rfl
    · simp only [apply_M]
      refine Prod.ext_iff.mpr ⟨?_, ?_⟩ <;> ring
    · simp only [apply_M]
      rw [hclip]
      refine Prod.ext_iff.mpr ⟨?_, ?_⟩
      · linear_combination sim_shift_x p1.1 p1.2 p2.1 p2.2 q1.1 q1.2 q2.1 q2.2
          (Real.sqrt ((p2.1 - p1.1) ^ 2 + (p2.2 - p1.2) ^ 2))
          (Real.sqrt ((q2.1 - q1.1) ^ 2 + (q2.2 - q1.2) ^ 2))
          (ne_of_gt hn1pos) (ne_of_gt hn2pos) hsq1
      · linear_combination sim_shift_y p1.1 p1.2 p2.1 p2.2 q1.1 q1.2 q2.1 q2.2
          (Real.sqrt ((p2.1 - p1.1) ^ 2 + (p2.2 - p1.2) ^ 2))
          (Real.sqrt ((q2.1 - q1.1) ^ 2 + (q2.2 - q1.2) ^ 2))
          (ne_of_gt hn1pos) (ne_of_gt hn2pos) hsq1
  refine ⟨gen, ?_⟩
  obtain ⟨M, hok, h1, h2⟩ := gen (0, 0) (10, 0) (0, 100) (0, 0)
    (by simp [Prod.ext_iff]) (by simp [Prod.ext_iff])
  refine ⟨M, by rw [fit_transform_two]; exact hok, ?_⟩
  have hm := hmid M 0 0 10 0
  simp only at h1 h2
  rw [h1, h2] at hm
  norm_num at hm
  exact hm

theorem fit_similarity_maps_endpoints_witness :
    ∃ M, fit_similarity_from_two ((0 : ℝ), (0 : ℝ)) ((10 : ℝ), (0 : ℝ))
        ((0 : ℝ), (100 : ℝ)) ((0 : ℝ), (0 : ℝ)) = .ok M ∧
      apply_M M (((0 : ℝ), (0 : ℝ)) : ℝ × ℝ).1 (((0 : ℝ), (0 : ℝ)) : ℝ × ℝ).2
        = ((0 : ℝ), (100 : ℝ)) ∧
      apply_M M (((10 : ℝ), (0 : ℝ)) : ℝ × ℝ).1 (((10 : ℝ), (0 : ℝ)) : ℝ × ℝ).2
        = ((0 : ℝ), (0 : ℝ)) :=
  fit_similarity_maps_endpoints.1 (0, 0) (10, 0) (0, 100) (0, 0)
    (by simp [Prod.ext_iff]) (by simp [Prod.ext_iff])
